import Mathlib

/-!
Verification of the feature-loading core of
`modules/nuclide-commons-atom/FeatureLoader.js`.

The JavaScript source is shallowly embedded: JS `Set` membership becomes
list membership, JS objects used as string-keyed maps become association
lists, and each host call made by the loader is recorded as an `Event` in
an explicit trace. Host calls that may throw are modelled by an
`HostBehavior` record that says, per package name, whether the call throws
and with which message; an uncaught exception is an `Except.error`.
-/

namespace FeatureLoader

/-- Package metadata of a feature (`FeaturePkg` in the source). Only the
fields the verified functions inspect are modelled; `providedServices`
holds the keys of the corresponding JS object (service values are
non-null objects, hence truthy). -/
structure FeaturePkg where
  providedServices : List String
deriving DecidableEq, Repr

/-- A feature descriptor (`Feature` in the source): a package path plus
its package metadata. -/
structure Feature where
  path : String
  pkg : FeaturePkg
deriving DecidableEq, Repr

/-- Constant `ALWAYS_ENABLED` from the source. -/
def ALWAYS_ENABLED : String := "always"

/-- Constant `NEVER_ENABLED` from the source. -/
def NEVER_ENABLED : String := "never"

/-- Constant `DEFAULT` from the source. -/
def DEFAULT : String := "default"

/-- Constant `REQUIRED_FEATURE_GROUP` from the source. -/
def REQUIRED_FEATURE_GROUP : String := "nuclide-required"

/-- Node `path.basename` for forward-slash paths: trailing separators are
ignored and the last path segment is returned. Implemented on character
lists so that it evaluates by kernel reduction. -/
def basename (p : String) : String :=
  String.mk
    (((p.data.reverse.dropWhile (fun c => c = '/')).takeWhile
      (fun c => c ≠ '/')).reverse)

/-- JS `s.startsWith(pre)`, implemented on character lists so that it
evaluates by kernel reduction. -/
def strStartsWith (s pre : String) : Bool :=
  pre.data.isPrefixOf s.data

/-- The source function `packageNameFromPath`: `path.basename(pkgPath)`. -/
def packageNameFromPath (pkgPath : String) : String :=
  basename pkgPath

/-- The source function `packageIsRepositoryProvider`:
`Boolean(idx(pkg, _ => _.providedServices[atom.repository-provider]))`. -/
def packageIsRepositoryProvider (pkg : FeaturePkg) : Bool :=
  pkg.providedServices.contains "atom.repository-provider"

/-- The source function `getFeatureDefaultValue`: default rule `never` for
feature names starting with `sample-`, otherwise `default`. -/
def getFeatureDefaultValue (feature : Feature) : String :=
  if strStartsWith (packageNameFromPath feature.path) "sample-" then NEVER_ENABLED
  else DEFAULT

/-- A raw value read from the per-feature rule table. Atom config values
are untyped; the loader compares them against the three rule strings and
against the boolean `true`, so strings and booleans are modelled. -/
inductive JsRule where
  | str (s : String)
  | bool (b : Bool)
deriving DecidableEq, Repr

/-- Lookup in the (possibly absent) rule table, as done by
`idx(useFeatureRules, _ => _[featureName])`: `none` when the table is
absent or the key is missing. -/
def jsLookup (rules : Option (List (String × JsRule))) (k : String) :
    Option JsRule :=
  match rules with
  | none => none
  | some t => (t.find? (fun e => e.1 = k)).map (fun e => e.2)

/-- Lookup in the feature-group index, with the `MultiMap.get` semantics
used by the source: a missing group name yields the empty set. -/
def mmGet (m : List (String × List Feature)) (k : String) : List Feature :=
  match m.find? (fun e => e.1 = k) with
  | some e => e.2
  | none => []

/-- The immutable per-loader data fixed at construction: the (reordered)
feature catalog `this._features` and the group index
`this._featureGroups`. -/
structure FeatureLoaderData where
  features : List Feature
  featureGroups : List (String × List Feature)
deriving DecidableEq, Repr

/-- The source method `getEnabledFeatures`, with the two config reads
(`useFeatureRules` and `enabledFeatureGroups`) passed in as arguments.
`featuresInEnabledGroups` is the whole catalog when the group selection is
absent, otherwise the union (`setUnion`) of the selected group sets; a
feature is kept when its rule is the string `always`, or the boolean
`true`, or it lies in an enabled group with rule `default`, or it belongs
to the required group. -/
def getEnabledFeatures (d : FeatureLoaderData)
    (useFeatureRules : Option (List (String × JsRule)))
    (enabledFeatureGroups : Option (List String)) : List Feature :=
  let featuresInEnabledGroups :=
    match enabledFeatureGroups with
    | some gs => gs.flatMap (fun g => mmGet d.featureGroups g)
    | none => d.features
  let requiredFeatures := mmGet d.featureGroups REQUIRED_FEATURE_GROUP
  d.features.filter (fun feature =>
    let featureName := packageNameFromPath feature.path
    let rawRule := jsLookup useFeatureRules featureName
    let rule := match rawRule with
      | none => JsRule.str (getFeatureDefaultValue feature)
      | some r => r
    decide (rule = JsRule.str ALWAYS_ENABLED ∨ rule = JsRule.bool true ∨
      (feature ∈ featuresInEnabledGroups ∧ rule = JsRule.str DEFAULT) ∨
      feature ∈ requiredFeatures))

/-- Spec-side resolver, written from the words of spec section 4.3 for
comparison with `getEnabledFeatures`: `eligibleByGroup` is every feature
when the selection is unset, else the union of the selected groups;
`required` is the required group; a feature missing from the rule table
defaults to `Never` under the reserved `sample-` naming convention and to
`Default` otherwise; a feature is included iff its rule is `Always`, or
its rule is `Default` and it is eligible by group, or it is required. -/
def resolveSpec (d : FeatureLoaderData)
    (useFeatureRules : Option (List (String × JsRule)))
    (enabledFeatureGroups : Option (List String)) : List Feature :=
  let eligibleByGroup :=
    match enabledFeatureGroups with
    | some gs => gs.flatMap (fun g => mmGet d.featureGroups g)
    | none => d.features
  let required := mmGet d.featureGroups REQUIRED_FEATURE_GROUP
  d.features.filter (fun f =>
    let rule := match jsLookup useFeatureRules (packageNameFromPath f.path) with
      | none =>
        JsRule.str
          (if strStartsWith (packageNameFromPath f.path) "sample-" then "never"
           else "default")
      | some r => r
    decide (rule = JsRule.str "always" ∨
      (rule = JsRule.str "default" ∧ f ∈ eligibleByGroup) ∨
      f ∈ required))

/-- The source function `groupFeatures`: builds the group index. Member
names are resolved against the catalog through the `namesToFeatures` map
(last feature with a given basename wins, as `Map.set` overwrites), and
unresolved names are discarded by `.filter(Boolean)`. Group values are
always arrays here, so the `Array.isArray` guard of the source is
vacuously true. -/
def groupFeatures (features : List Feature)
    (rawFeatureGroups : List (String × List String)) :
    List (String × List Feature) :=
  let namesToFeatures := fun (featureName : String) =>
    features.reverse.find? (fun f => basename f.path = featureName)
  rawFeatureGroups.map (fun e => (e.1, e.2.filterMap namesToFeatures))

/-- Comparator of the source function `reorderFeatures`, phrased as a
boolean `le` on index-paired features: when exactly one of the two
features provides the repository service it comes first, otherwise the
original indices decide. -/
def reorderLE (a b : Nat × Feature) : Bool :=
  let aIsRepoProvider := packageIsRepositoryProvider a.2.pkg
  let bIsRepoProvider := packageIsRepositoryProvider b.2.pkg
  if aIsRepoProvider != bIsRepoProvider then aIsRepoProvider
  else decide (a.1 ≤ b.1)

/-- The source function `reorderFeatures`: copies the list, records each
feature with its original index (the `originalOrder` map keyed by object
identity) and sorts with the comparator above. -/
def reorderFeatures (features_ : List Feature) : List Feature :=
  let indexed := features_.enum
  (indexed.mergeSort reorderLE).map (fun p => p.2)

/-- A host call issued by the loader, as recorded in the trace. -/
inductive Event where
  | activateCall (name : String)
  | deactivateCall (name : String) (suppressSerialization : Bool)
  | serializeCall (name : String)
  | log (msg : String)
deriving DecidableEq, Repr

/-- The observable behavior of the Atom host for the calls the loader
makes: which packages `getLoadedPackage` and `getActivePackage` report,
and which calls throw (with which error message). -/
structure HostBehavior where
  loadedPackages : List String
  activePackages : List String
  activateFails : String → Option String
  deactivateFails : String → Option String
  serializeFails : String → Option String

/-- The source function `safeDeactivate`: inside a try block it asks for
the loaded package and deactivates it when present; a thrown error is
caught and logged, so the function always returns its trace normally. -/
def safeDeactivate (h : HostBehavior) (feature : Feature)
    (suppressSerialization : Bool) : List Event :=
  let name := packageNameFromPath feature.path
  if name ∈ h.loadedPackages then
    match h.deactivateFails name with
    | some m =>
      [Event.deactivateCall name suppressSerialization,
       Event.log ("Error deactivating \"" ++ name ++ "\": " ++ m)]
    | none => [Event.deactivateCall name suppressSerialization]
  else []

/-- The source function `safeSerialize`: inside a try block it asks for
the active package and serializes it when present; a thrown error is
caught and logged, so the function always returns its trace normally. -/
def safeSerialize (h : HostBehavior) (feature : Feature) : List Event :=
  let name := packageNameFromPath feature.path
  if name ∈ h.activePackages then
    match h.serializeFails name with
    | some m =>
      [Event.serializeCall name,
       Event.log ("Error serializing \"" ++ name ++ "\": " ++ m)]
    | none => [Event.serializeCall name]
  else []

/-- The source method `serialize`: `this._features.forEach(safeSerialize)`. -/
def serialize (h : HostBehavior) (features : List Feature) : List Event :=
  features.flatMap (fun f => safeSerialize h f)

/-- First loop of `updateActiveFeatures`: for each feature to activate
that is not currently active, call `atom.packages.activatePackage`. The
call is not wrapped in a try block, so a thrown error aborts the loop and
escapes as `Except.error` carrying the message and the trace so far. -/
def activateLoop (h : HostBehavior) (active : List Feature) :
    List Feature → Except (String × List Event) (List Event)
  | [] => Except.ok []
  | f :: fs =>
    if f ∈ active then activateLoop h active fs
    else
      let name := packageNameFromPath f.path
      match h.activateFails name with
      | some m => Except.error (m, [Event.activateCall name])
      | none =>
        match activateLoop h active fs with
        | Except.ok evs => Except.ok (Event.activateCall name :: evs)
        | Except.error (m, evs) =>
          Except.error (m, Event.activateCall name :: evs)

/-- The source method `updateActiveFeatures`: resolve the enabled set,
activate every resolved feature not currently active, then
`safeDeactivate` every active feature no longer resolved, and replace
`this._currentlyActiveFeatures` with the resolved set. Returns the new
active set and the trace, or the uncaught error of a failed activation. -/
def updateActiveFeatures (h : HostBehavior) (d : FeatureLoaderData)
    (useFeatureRules : Option (List (String × JsRule)))
    (enabledFeatureGroups : Option (List String))
    (active : List Feature) :
    Except (String × List Event) (List Feature × List Event) :=
  let featuresToActivate := getEnabledFeatures d useFeatureRules enabledFeatureGroups
  match activateLoop h active featuresToActivate with
  | Except.error e => Except.error e
  | Except.ok evs1 =>
    let evs2 := active.flatMap (fun f =>
      if f ∈ featuresToActivate then [] else safeDeactivate h f false)
    Except.ok (featuresToActivate, evs1 ++ evs2)

/-- Body of the deactivation pass of the source method `deactivate`:
`safeDeactivate(feature, true)` for every currently active feature. -/
def deactivateAll (h : HostBehavior) (active : List Feature) : List Event :=
  active.flatMap (fun f => safeDeactivate h f true)

/-- The mutable controller state the lifecycle invariants read:
whether `this._loadDisposable` has been disposed, the state of
`this._activationDisposable` (`none` for null, otherwise its disposed
flag) and `this._currentlyActiveFeatures`. -/
structure LoaderState where
  loadDisposableDisposed : Bool
  activationDisposable : Option Bool
  currentlyActiveFeatures : List Feature
deriving DecidableEq, Repr

/-- The state of a freshly constructed loader. -/
def initialState : LoaderState :=
  { loadDisposableDisposed := false
    activationDisposable := none
    currentlyActiveFeatures := [] }

/-- Message of a failed `invariant(...)` call (an uncaught assertion). -/
def invariantViolation : String := "invariant violation"

/-- The source method `load` restricted to the modelled state: it asserts
`!this._loadDisposable.disposed`; its effects (registering the dummy
deserializer, building the config, registering the one-shot
`whenPackageLoaded` callback) touch none of the modelled fields. -/
def load (s : LoaderState) : Except String LoaderState :=
  if s.loadDisposableDisposed then Except.error invariantViolation
  else Except.ok s

/-- The source method `activate`: asserts that
`this._activationDisposable` is null and that the root package is loaded,
installs the two config subscriptions, and runs one reconciliation.
An error thrown by that reconciliation escapes uncaught. -/
def activate (h : HostBehavior) (rootLoaded : Bool) (d : FeatureLoaderData)
    (useFeatureRules : Option (List (String × JsRule)))
    (enabledFeatureGroups : Option (List String)) (s : LoaderState) :
    Except String (LoaderState × List Event) :=
  match s.activationDisposable with
  | some _ => Except.error invariantViolation
  | none =>
    if rootLoaded then
      match updateActiveFeatures h d useFeatureRules enabledFeatureGroups
          s.currentlyActiveFeatures with
      | Except.error e => Except.error e.1
      | Except.ok r =>
        Except.ok
          ({ s with activationDisposable := some false
                    currentlyActiveFeatures := r.1 }, r.2)
    else Except.error invariantViolation

/-- The source method `deactivate`: asserts that
`this._activationDisposable` exists and is not disposed, runs
`safeDeactivate(feature, true)` over the active set, empties it, and
disposes and clears the activation disposable. -/
def deactivate (h : HostBehavior) (s : LoaderState) :
    Except String (LoaderState × List Event) :=
  match s.activationDisposable with
  | none => Except.error invariantViolation
  | some true => Except.error invariantViolation
  | some false =>
    Except.ok
      ({ s with activationDisposable := none
                currentlyActiveFeatures := [] },
       deactivateAll h s.currentlyActiveFeatures)

/-! ## Helper lemmas -/

/-- The effective rule computed inside `getEnabledFeatures`: the raw table
value when present, otherwise the default value of the feature. -/
lemma codePred_iff_specPred (ruleC ruleS : JsRule) (mem req : Prop)
    (heq : ruleC = ruleS)
    (h3 : ruleS = JsRule.str "always" ∨ ruleS = JsRule.str "never" ∨
      ruleS = JsRule.str "default") :
    (ruleC = JsRule.str ALWAYS_ENABLED ∨ ruleC = JsRule.bool true ∨
      (mem ∧ ruleC = JsRule.str DEFAULT) ∨ req) ↔
    (ruleS = JsRule.str "always" ∨ (ruleS = JsRule.str "default" ∧ mem) ∨ req) := by
  subst heq
  rcases h3 with h | h | h <;> subst h <;>
    simp [ALWAYS_ENABLED, DEFAULT]

/-- A successful rule-table lookup returns the value of some table entry. -/
lemma jsLookup_mem (rules : Option (List (String × JsRule))) (k : String)
    (r : JsRule) (h : jsLookup rules k = some r) :
    ∃ e ∈ rules.getD [], e.2 = r := by
  cases rules with
  | none => simp [jsLookup] at h
  | some t =>
    simp only [jsLookup] at h
    cases hft : t.find? (fun e => e.1 = k) with
    | none => rw [hft] at h; simp at h
    | some e =>
      rw [hft] at h
      simp at h
      exact ⟨e, List.mem_of_find?_eq_some hft, h⟩

/-- Looking up a key in the group index built by `groupFeatures` is the
lookup in the raw group definitions followed by member-name resolution. -/
lemma find?_groupFeatures (features : List Feature)
    (raw : List (String × List String)) (k : String) :
    (groupFeatures features raw).find? (fun e => e.1 = k) =
      (raw.find? (fun e => e.1 = k)).map
        (fun e => (e.1, e.2.filterMap
          (fun n => features.reverse.find? (fun f => basename f.path = n)))) := by
  unfold groupFeatures
  induction raw with
  | nil => rfl
  | cons e es ih =>
    by_cases h : e.1 = k <;> simp [List.find?_cons, h, ih]

/-- When no needed activation fails, the activation loop issues exactly
one activation call per feature to activate that is not already active,
in order. -/
lemma activateLoop_no_failures (h : HostBehavior) (active : List Feature)
    (l : List Feature)
    (hok : ∀ f ∈ l, f ∉ active →
      h.activateFails (packageNameFromPath f.path) = none) :
    activateLoop h active l =
      Except.ok ((l.filter (fun f => decide (f ∉ active))).map
        (fun f => Event.activateCall (packageNameFromPath f.path))) := by
  induction l with
  | nil => rfl
  | cons f fs ih =>
    have ihh := ih (fun g hg hn => hok g (List.mem_cons_of_mem f hg) hn)
    by_cases hm : f ∈ active
    · simp [activateLoop, hm, ihh]
    · have hfail := hok f (List.mem_cons_self f fs) hm
      simp [activateLoop, hm, hfail, ihh]

/-- When every feature of the list is already active, the activation loop
issues nothing. -/
lemma activateLoop_all_active (h : HostBehavior) (active : List Feature)
    (l : List Feature) (hsub : ∀ f ∈ l, f ∈ active) :
    activateLoop h active l = Except.ok [] := by
  induction l with
  | nil => rfl
  | cons f fs ih =>
    have hm := hsub f (List.mem_cons_self f fs)
    simp only [activateLoop, if_pos hm]
    exact ih (fun g hg => hsub g (List.mem_cons_of_mem f hg))

/-- When every stale feature is loaded and none of its deactivations
fails, the deactivation pass issues exactly one deactivation call per
active feature that is no longer wanted, in order. -/
lemma deactivations_no_failures (h : HostBehavior)
    (active toActivate : List Feature)
    (hld : ∀ f ∈ active, f ∉ toActivate →
      packageNameFromPath f.path ∈ h.loadedPackages ∧
      h.deactivateFails (packageNameFromPath f.path) = none) :
    (active.flatMap (fun f =>
      if f ∈ toActivate then [] else safeDeactivate h f false)) =
      (active.filter (fun f => decide (f ∉ toActivate))).map
        (fun f => Event.deactivateCall (packageNameFromPath f.path) false) := by
  induction active with
  | nil => rfl
  | cons f fs ih =>
    have ihh := ih (fun g hg hn => hld g (List.mem_cons_of_mem f hg) hn)
    by_cases hm : f ∈ toActivate
    · simp [hm, ihh]
    · obtain ⟨hl, hd⟩ := hld f (List.mem_cons_self f fs) hm
      have hsd : safeDeactivate h f false =
          [Event.deactivateCall (packageNameFromPath f.path) false] := by
        simp [safeDeactivate, hl, hd]
      simp [hm, hsd, ihh]

/-! ## Claim theorems -/

/-- C1. For every catalog, rule table whose values lie in the documented
domain of the three rule strings, enabled-groups selection and group
index, `getEnabledFeatures` computes exactly the set described by the
spec resolver `resolveSpec`: rule `always`, or rule `default` together
with group eligibility, or required-group membership, with the missing
rule defaulting to `never` under the `sample-` convention and `default`
otherwise. -/
theorem c1_resolver_matches_spec (d : FeatureLoaderData)
    (useFeatureRules : Option (List (String × JsRule)))
    (enabledFeatureGroups : Option (List String))
    (hr : ∀ e ∈ useFeatureRules.getD [],
      e.2 = JsRule.str ALWAYS_ENABLED ∨ e.2 = JsRule.str NEVER_ENABLED ∨
      e.2 = JsRule.str DEFAULT) :
    getEnabledFeatures d useFeatureRules enabledFeatureGroups =
      resolveSpec d useFeatureRules enabledFeatureGroups := by
  unfold getEnabledFeatures resolveSpec
  refine List.filter_congr ?_
  intro f hf
  rw [decide_eq_decide]
  cases hlk : jsLookup useFeatureRules (packageNameFromPath f.path) with
  | none =>
    simp only [hlk]
    refine codePred_iff_specPred _ _ _ _ ?_ ?_
    · unfold getFeatureDefaultValue NEVER_ENABLED DEFAULT
      split <;> rfl
    · split <;> simp
  | some r =>
    simp only [hlk]
    refine codePred_iff_specPred _ _ _ _ rfl ?_
    obtain ⟨e, he, hev⟩ := jsLookup_mem useFeatureRules _ r hlk
    rcases hr e he with h | h | h <;> rw [← hev, h] <;> simp [ALWAYS_ENABLED, NEVER_ENABLED, DEFAULT]

/-- Witness for C1 at a concrete catalog, rule table and selection. -/
theorem c1_resolver_matches_spec_witness :
    (∀ e ∈ (some [("feat-a", JsRule.str "always"),
                  ("feat-b", JsRule.str "never")] :
        Option (List (String × JsRule))).getD [],
      e.2 = JsRule.str ALWAYS_ENABLED ∨ e.2 = JsRule.str NEVER_ENABLED ∨
      e.2 = JsRule.str DEFAULT) ∧
    getEnabledFeatures
        ⟨[⟨"pkgs/feat-a", ⟨[]⟩⟩, ⟨"pkgs/feat-b", ⟨[]⟩⟩],
         [("g1", [⟨"pkgs/feat-b", ⟨[]⟩⟩])]⟩
        (some [("feat-a", JsRule.str "always"), ("feat-b", JsRule.str "never")])
        (some ["g1"]) =
      resolveSpec
        ⟨[⟨"pkgs/feat-a", ⟨[]⟩⟩, ⟨"pkgs/feat-b", ⟨[]⟩⟩],
         [("g1", [⟨"pkgs/feat-b", ⟨[]⟩⟩])]⟩
        (some [("feat-a", JsRule.str "always"), ("feat-b", JsRule.str "never")])
        (some ["g1"]) :=
  ⟨by decide,
   c1_resolver_matches_spec
     ⟨[⟨"pkgs/feat-a", ⟨[]⟩⟩, ⟨"pkgs/feat-b", ⟨[]⟩⟩],
      [("g1", [⟨"pkgs/feat-b", ⟨[]⟩⟩])]⟩
     (some [("feat-a", JsRule.str "always"), ("feat-b", JsRule.str "never")])
     (some ["g1"]) (by decide)⟩

/-- C2. A feature of the catalog that belongs to the required group
`nuclide-required` is in the resolved enabled set for every rule table
(including one that maps it to an explicit `never`) and every
enabled-groups selection. -/
theorem c2_required_group_overrides (d : FeatureLoaderData)
    (useFeatureRules : Option (List (String × JsRule)))
    (enabledFeatureGroups : Option (List String)) (f : Feature)
    (hcat : f ∈ d.features)
    (hreq : f ∈ mmGet d.featureGroups REQUIRED_FEATURE_GROUP) :
    f ∈ getEnabledFeatures d useFeatureRules enabledFeatureGroups := by
  simp only [getEnabledFeatures, List.mem_filter, decide_eq_true_eq]
  exact ⟨hcat, Or.inr (Or.inr (Or.inr hreq))⟩

/-- Witness for C2: a required feature with an explicit `never` rule and
an empty enabled-groups selection is still resolved as enabled. -/
theorem c2_required_group_overrides_witness :
    (⟨"pkgs/feat-a", ⟨[]⟩⟩ : Feature) ∈
      (⟨[⟨"pkgs/feat-a", ⟨[]⟩⟩],
        [("nuclide-required", [⟨"pkgs/feat-a", ⟨[]⟩⟩])]⟩ :
        FeatureLoaderData).features ∧
    (⟨"pkgs/feat-a", ⟨[]⟩⟩ : Feature) ∈
      mmGet [("nuclide-required", [⟨"pkgs/feat-a", ⟨[]⟩⟩])]
        REQUIRED_FEATURE_GROUP ∧
    (⟨"pkgs/feat-a", ⟨[]⟩⟩ : Feature) ∈
      getEnabledFeatures
        ⟨[⟨"pkgs/feat-a", ⟨[]⟩⟩],
         [("nuclide-required", [⟨"pkgs/feat-a", ⟨[]⟩⟩])]⟩
        (some [("feat-a", JsRule.str "never")]) (some []) :=
  ⟨by decide, by decide,
   c2_required_group_overrides
     ⟨[⟨"pkgs/feat-a", ⟨[]⟩⟩],
      [("nuclide-required", [⟨"pkgs/feat-a", ⟨[]⟩⟩])]⟩
     (some [("feat-a", JsRule.str "never")]) (some [])
     ⟨"pkgs/feat-a", ⟨[]⟩⟩ (by decide) (by decide)⟩

/-- C10. A feature whose raw configured rule value is the boolean `true`
is resolved as enabled for every enabled-groups selection, through the
`rule === true` disjunct of `getEnabledFeatures`. -/
theorem c10_boolean_true_rule (d : FeatureLoaderData)
    (useFeatureRules : Option (List (String × JsRule)))
    (enabledFeatureGroups : Option (List String)) (f : Feature)
    (hcat : f ∈ d.features)
    (hrule : jsLookup useFeatureRules (packageNameFromPath f.path) =
      some (JsRule.bool true)) :
    f ∈ getEnabledFeatures d useFeatureRules enabledFeatureGroups := by
  simp only [getEnabledFeatures, List.mem_filter, decide_eq_true_eq, hrule]
  exact ⟨hcat, by tauto⟩

/-- Witness for C10: a boolean `true` rule enables the feature even with
an empty enabled-groups selection and no group membership. -/
theorem c10_boolean_true_rule_witness :
    (⟨"pkgs/feat-a", ⟨[]⟩⟩ : Feature) ∈
      (⟨[⟨"pkgs/feat-a", ⟨[]⟩⟩], []⟩ : FeatureLoaderData).features ∧
    jsLookup (some [("feat-a", JsRule.bool true)])
      (packageNameFromPath "pkgs/feat-a") = some (JsRule.bool true) ∧
    (⟨"pkgs/feat-a", ⟨[]⟩⟩ : Feature) ∈
      getEnabledFeatures ⟨[⟨"pkgs/feat-a", ⟨[]⟩⟩], []⟩
        (some [("feat-a", JsRule.bool true)]) (some []) :=
  ⟨by decide, by decide,
   c10_boolean_true_rule ⟨[⟨"pkgs/feat-a", ⟨[]⟩⟩], []⟩
     (some [("feat-a", JsRule.bool true)]) (some [])
     ⟨"pkgs/feat-a", ⟨[]⟩⟩ (by decide) (by decide)⟩

/-- C9. For every group-definition mapping, the group index resolves a
declared group to the name-by-name resolution of its members, so member
names with no matching catalog feature are simply dropped; in particular
a group all of whose member names resolve to nothing contributes the
empty feature set. `groupFeatures` and `getEnabledFeatures` are total
functions, so no error can be raised while building or resolving. -/
theorem c9_unknown_group_members_dropped (features : List Feature)
    (raw : List (String × List String)) (k : String) (names : List String)
    (hfind : raw.find? (fun e => e.1 = k) = some (k, names)) :
    mmGet (groupFeatures features raw) k =
      names.filterMap
        (fun n => features.reverse.find? (fun f => basename f.path = n)) ∧
    ((∀ n ∈ names,
        features.reverse.find? (fun f => basename f.path = n) = none) →
      mmGet (groupFeatures features raw) k = []) := by
  have h1 : mmGet (groupFeatures features raw) k =
      names.filterMap
        (fun n => features.reverse.find? (fun f => basename f.path = n)) := by
    unfold mmGet
    rw [find?_groupFeatures, hfind]
    rfl
  refine ⟨h1, fun hnone => ?_⟩
  rw [h1, List.filterMap_eq_nil_iff]
  exact hnone

/-- Witness for C9: a group naming only a nonexistent feature contributes
the empty set. -/
theorem c9_unknown_group_members_dropped_witness :
    ([("g1", ["no-such-feature"])].find?
        (fun e => e.1 = "g1") = some ("g1", ["no-such-feature"])) ∧
    mmGet (groupFeatures [⟨"pkgs/feat-a", ⟨[]⟩⟩]
      [("g1", ["no-such-feature"])]) "g1" = [] :=
  ⟨by decide,
   (c9_unknown_group_members_dropped [⟨"pkgs/feat-a", ⟨[]⟩⟩]
     [("g1", ["no-such-feature"])] "g1" ["no-such-feature"]
     (by decide)).2 (by decide)⟩

/-- C3. A reconciliation pass issues one host activation request for
exactly the resolved features not currently active, then one host
deactivation request for exactly the active features no longer resolved
(all activations strictly before all deactivations), and replaces the
active set with the resolved set. Stated under the hypotheses that the
needed activations do not throw and that the stale features are loaded
and their deactivations do not throw, so that the trace consists of
exactly these calls. -/
theorem c3_reconciliation_diff (h : HostBehavior) (d : FeatureLoaderData)
    (useFeatureRules : Option (List (String × JsRule)))
    (enabledFeatureGroups : Option (List String)) (active : List Feature)
    (hact : ∀ f ∈ getEnabledFeatures d useFeatureRules enabledFeatureGroups,
      f ∉ active → h.activateFails (packageNameFromPath f.path) = none)
    (hdeact : ∀ f ∈ active,
      f ∉ getEnabledFeatures d useFeatureRules enabledFeatureGroups →
      packageNameFromPath f.path ∈ h.loadedPackages ∧
      h.deactivateFails (packageNameFromPath f.path) = none) :
    updateActiveFeatures h d useFeatureRules enabledFeatureGroups active =
      Except.ok (getEnabledFeatures d useFeatureRules enabledFeatureGroups,
        ((getEnabledFeatures d useFeatureRules enabledFeatureGroups).filter
          (fun f => decide (f ∉ active))).map
          (fun f => Event.activateCall (packageNameFromPath f.path)) ++
        (active.filter (fun f =>
          decide (f ∉ getEnabledFeatures d useFeatureRules enabledFeatureGroups))).map
          (fun f => Event.deactivateCall (packageNameFromPath f.path) false)) := by
  simp only [updateActiveFeatures]
  rw [activateLoop_no_failures h active _ hact,
    deactivations_no_failures h active _ hdeact]

/-- Witness for C3, realizing the example of the claim: from active set
containing feat-a and feat-b and resolved set containing feat-b and
feat-c, the pass activates feat-c, then deactivates feat-a, and ends with
active set feat-b, feat-c. -/
theorem c3_reconciliation_diff_witness :
    (∀ f ∈ getEnabledFeatures
        ⟨[⟨"pkgs/feat-a", ⟨[]⟩⟩, ⟨"pkgs/feat-b", ⟨[]⟩⟩, ⟨"pkgs/feat-c", ⟨[]⟩⟩], []⟩
        (some [("feat-a", JsRule.str "never")]) none,
      f ∉ [(⟨"pkgs/feat-a", ⟨[]⟩⟩ : Feature), ⟨"pkgs/feat-b", ⟨[]⟩⟩] →
      HostBehavior.activateFails
        ⟨["feat-a", "feat-b"], [], fun _ => none, fun _ => none, fun _ => none⟩
        (packageNameFromPath f.path) = none) ∧
    (∀ f ∈ [(⟨"pkgs/feat-a", ⟨[]⟩⟩ : Feature), ⟨"pkgs/feat-b", ⟨[]⟩⟩],
      f ∉ getEnabledFeatures
        ⟨[⟨"pkgs/feat-a", ⟨[]⟩⟩, ⟨"pkgs/feat-b", ⟨[]⟩⟩, ⟨"pkgs/feat-c", ⟨[]⟩⟩], []⟩
        (some [("feat-a", JsRule.str "never")]) none →
      packageNameFromPath f.path ∈
        HostBehavior.loadedPackages
          ⟨["feat-a", "feat-b"], [], fun _ => none, fun _ => none, fun _ => none⟩ ∧
      HostBehavior.deactivateFails
        ⟨["feat-a", "feat-b"], [], fun _ => none, fun _ => none, fun _ => none⟩
        (packageNameFromPath f.path) = none) ∧
    updateActiveFeatures
      ⟨["feat-a", "feat-b"], [], fun _ => none, fun _ => none, fun _ => none⟩
      ⟨[⟨"pkgs/feat-a", ⟨[]⟩⟩, ⟨"pkgs/feat-b", ⟨[]⟩⟩, ⟨"pkgs/feat-c", ⟨[]⟩⟩], []⟩
      (some [("feat-a", JsRule.str "never")]) none
      [⟨"pkgs/feat-a", ⟨[]⟩⟩, ⟨"pkgs/feat-b", ⟨[]⟩⟩] =
      Except.ok
        ([⟨"pkgs/feat-b", ⟨[]⟩⟩, ⟨"pkgs/feat-c", ⟨[]⟩⟩],
         [Event.activateCall "feat-c", Event.deactivateCall "feat-a" false]) :=
  ⟨by decide, by decide, by
    have := c3_reconciliation_diff
      ⟨["feat-a", "feat-b"], [], fun _ => none, fun _ => none, fun _ => none⟩
      ⟨[⟨"pkgs/feat-a", ⟨[]⟩⟩, ⟨"pkgs/feat-b", ⟨[]⟩⟩, ⟨"pkgs/feat-c", ⟨[]⟩⟩], []⟩
      (some [("feat-a", JsRule.str "never")]) none
      [⟨"pkgs/feat-a", ⟨[]⟩⟩, ⟨"pkgs/feat-b", ⟨[]⟩⟩]
      (by decide) (by decide)
    exact this.trans (by rfl)⟩

/-- C5. Reconciliation is idempotent: after a pass that succeeded with
new active set `a1` under an unchanged configuration, a second pass
issues no host call at all and leaves the active set at `a1`; hence after
any number of passes the active set equals the currently resolved set. -/
theorem c5_reconciliation_idempotent (h : HostBehavior)
    (d : FeatureLoaderData)
    (useFeatureRules : Option (List (String × JsRule)))
    (enabledFeatureGroups : Option (List String))
    (active a1 : List Feature) (tr1 : List Event)
    (h1 : updateActiveFeatures h d useFeatureRules enabledFeatureGroups active =
      Except.ok (a1, tr1)) :
    updateActiveFeatures h d useFeatureRules enabledFeatureGroups a1 =
      Except.ok (a1, []) := by
  have ha1 : a1 = getEnabledFeatures d useFeatureRules enabledFeatureGroups := by
    simp only [updateActiveFeatures] at h1
    cases hal : activateLoop h active
        (getEnabledFeatures d useFeatureRules enabledFeatureGroups) with
    | error e => rw [hal] at h1; simp at h1
    | ok evs =>
      rw [hal] at h1
      simp only [Except.ok.injEq, Prod.mk.injEq] at h1
      exact h1.1.symm
  subst ha1
  simp only [updateActiveFeatures]
  rw [activateLoop_all_active h _ _ (fun f hf => hf)]
  have hde : (getEnabledFeatures d useFeatureRules enabledFeatureGroups).flatMap
      (fun f =>
        if f ∈ getEnabledFeatures d useFeatureRules enabledFeatureGroups then []
        else safeDeactivate h f false) = [] := by
    rw [List.flatMap_eq_nil_iff]
    intro f hf
    rw [if_pos hf]
  rw [hde]
  rfl

/-- Witness for C5: a second pass over the configuration of the C3
example issues no call. -/
theorem c5_reconciliation_idempotent_witness :
    updateActiveFeatures
      ⟨["feat-a", "feat-b"], [], fun _ => none, fun _ => none, fun _ => none⟩
      ⟨[⟨"pkgs/feat-a", ⟨[]⟩⟩, ⟨"pkgs/feat-b", ⟨[]⟩⟩, ⟨"pkgs/feat-c", ⟨[]⟩⟩], []⟩
      (some [("feat-a", JsRule.str "never")]) none
      [⟨"pkgs/feat-a", ⟨[]⟩⟩, ⟨"pkgs/feat-b", ⟨[]⟩⟩] =
      Except.ok
        ([⟨"pkgs/feat-b", ⟨[]⟩⟩, ⟨"pkgs/feat-c", ⟨[]⟩⟩],
         [Event.activateCall "feat-c", Event.deactivateCall "feat-a" false]) ∧
    updateActiveFeatures
      ⟨["feat-a", "feat-b"], [], fun _ => none, fun _ => none, fun _ => none⟩
      ⟨[⟨"pkgs/feat-a", ⟨[]⟩⟩, ⟨"pkgs/feat-b", ⟨[]⟩⟩, ⟨"pkgs/feat-c", ⟨[]⟩⟩], []⟩
      (some [("feat-a", JsRule.str "never")]) none
      [⟨"pkgs/feat-b", ⟨[]⟩⟩, ⟨"pkgs/feat-c", ⟨[]⟩⟩] =
      Except.ok ([⟨"pkgs/feat-b", ⟨[]⟩⟩, ⟨"pkgs/feat-c", ⟨[]⟩⟩], []) :=
  ⟨by rfl,
   c5_reconciliation_idempotent
     ⟨["feat-a", "feat-b"], [], fun _ => none, fun _ => none, fun _ => none⟩
     ⟨[⟨"pkgs/feat-a", ⟨[]⟩⟩, ⟨"pkgs/feat-b", ⟨[]⟩⟩, ⟨"pkgs/feat-c", ⟨[]⟩⟩], []⟩
     (some [("feat-a", JsRule.str "never")]) none
     [⟨"pkgs/feat-a", ⟨[]⟩⟩, ⟨"pkgs/feat-b", ⟨[]⟩⟩]
     [⟨"pkgs/feat-b", ⟨[]⟩⟩, ⟨"pkgs/feat-c", ⟨[]⟩⟩]
     [Event.activateCall "feat-c", Event.deactivateCall "feat-a" false]
     (by rfl)⟩

/-- The reorder comparator is transitive. -/
lemma reorderLE_trans : ∀ (a b c : Nat × Feature),
    reorderLE a b → reorderLE b c → reorderLE a c := by
  intro a b c hab hbc
  unfold reorderLE at hab hbc ⊢
  cases ha : packageIsRepositoryProvider a.2.pkg <;>
    cases hb : packageIsRepositoryProvider b.2.pkg <;>
      cases hc : packageIsRepositoryProvider c.2.pkg <;>
        simp_all <;> omega

/-- The reorder comparator is total. -/
lemma reorderLE_total : ∀ (a b : Nat × Feature),
    reorderLE a b || reorderLE b a := by
  intro a b
  unfold reorderLE
  cases ha : packageIsRepositoryProvider a.2.pkg <;>
    cases hb : packageIsRepositoryProvider b.2.pkg <;>
      simp_all <;> omega

/-- A list sorted by a relation that never lets a non-`P` element precede
a `P` element is the concatenation of its `P` part and its non-`P` part. -/
lemma sorted_eq_filter_append_filter {α : Type} (P : α → Bool)
    (R : α → α → Bool) (m : List α)
    (hs : m.Pairwise (fun a b => R a b))
    (hcross : ∀ a b, P a = false → P b = true → ¬ R a b) :
    m = m.filter P ++ m.filter (fun x => !P x) := by
  induction m with
  | nil => rfl
  | cons x xs ih =>
    obtain ⟨hhead, htl⟩ := List.pairwise_cons.mp hs
    cases hx : P x with
    | true =>
      simp only [List.filter_cons, hx, Bool.not_true, List.cons_append]
      simpa using ih htl
    | false =>
      have hnone : ∀ y ∈ xs, P y = false := by
        intro y hy
        cases hPy : P y with
        | false => rfl
        | true => exact absurd (hhead y hy) (hcross x y hx hPy)
      have h1 : List.filter P xs = [] :=
        List.filter_eq_nil_iff.mpr (fun a ha => by simp [hnone a ha])
      have h2 : List.filter (fun y => !P y) xs = xs :=
        List.filter_eq_self.mpr (fun a ha => by simp [hnone a ha])
      simp [List.filter_cons, hx, h1, h2]

/-- Index-paired lists produced by `enumFrom` have strictly increasing
first components. -/
lemma pairwise_fst_lt_enumFrom {α : Type} (n : Nat) (l : List α) :
    (List.enumFrom n l).Pairwise (fun a b => a.1 < b.1) := by
  induction l generalizing n with
  | nil => simp
  | cons x xs ih =>
    simp only [List.enumFrom_cons]
    refine List.pairwise_cons.mpr ⟨?_, ih (n + 1)⟩
    intro p hp
    have := List.le_fst_of_mem_enumFrom hp
    omega

/-- Filtering an index-paired list on the payload and dropping the
indices is filtering the payload list. -/
lemma map_snd_filter_enumFrom (q : Feature → Bool) (n : Nat)
    (l : List Feature) :
    ((List.enumFrom n l).filter (fun p => q p.2)).map Prod.snd =
      l.filter q := by
  induction l generalizing n with
  | nil => rfl
  | cons x xs ih =>
    by_cases hq : q x <;>
      simp [List.enumFrom_cons, List.filter_cons, hq, ih (n + 1)]

/-- Sorting an index-paired list with strictly increasing indices by the
reorder comparator yields the providers, in index order, followed by the
non-providers, in index order. -/
lemma mergeSort_reorderLE_eq (l : List (Nat × Feature))
    (hidx : l.Pairwise (fun a b => a.1 < b.1)) :
    l.mergeSort reorderLE =
      l.filter (fun p => packageIsRepositoryProvider p.2.pkg) ++
      l.filter (fun p => !packageIsRepositoryProvider p.2.pkg) := by
  have hsorted : (l.mergeSort reorderLE).Pairwise (fun a b => reorderLE a b) :=
    List.sorted_mergeSort reorderLE_trans reorderLE_total l
  have hcross : ∀ a b : Nat × Feature,
      packageIsRepositoryProvider a.2.pkg = false →
      packageIsRepositoryProvider b.2.pkg = true → ¬ reorderLE a b := by
    intro a b ha hb
    unfold reorderLE
    simp [ha, hb]
  have hpart := @sorted_eq_filter_append_filter (Nat × Feature)
    (fun p => packageIsRepositoryProvider p.2.pkg) reorderLE
    (l.mergeSort reorderLE) hsorted hcross
  have hperm : List.Perm (l.mergeSort reorderLE) l := List.mergeSort_perm l reorderLE
  have hfilterP : (l.mergeSort reorderLE).filter
      (fun p => packageIsRepositoryProvider p.2.pkg) =
      l.filter (fun p => packageIsRepositoryProvider p.2.pkg) := by
    have hpw : (l.filter (fun p => packageIsRepositoryProvider p.2.pkg)).Pairwise
        (fun a b => reorderLE a b) := by
      refine List.Pairwise.imp_of_mem ?_
        (List.Pairwise.filter (fun p => packageIsRepositoryProvider p.2.pkg) hidx)
      intro a b hma hmb hlt
      have hpa := (List.mem_filter.mp hma).2
      have hpb := (List.mem_filter.mp hmb).2
      unfold reorderLE
      simp only [hpa, hpb]
      simp
      omega
    have hsub : List.Sublist
        (l.filter (fun p => packageIsRepositoryProvider p.2.pkg))
        (l.mergeSort reorderLE) :=
      List.sublist_mergeSort reorderLE_trans reorderLE_total hpw
        (List.filter_sublist l)
    have hsub2 : List.Sublist
        (l.filter (fun p => packageIsRepositoryProvider p.2.pkg))
        ((l.mergeSort reorderLE).filter
          (fun p => packageIsRepositoryProvider p.2.pkg)) := by
      have hidem : (l.filter (fun p => packageIsRepositoryProvider p.2.pkg)).filter
          (fun p => packageIsRepositoryProvider p.2.pkg) =
          l.filter (fun p => packageIsRepositoryProvider p.2.pkg) :=
        List.filter_eq_self.mpr (fun a ha => (List.mem_filter.mp ha).2)
      have := hsub.filter (fun p => packageIsRepositoryProvider p.2.pkg)
      rwa [hidem] at this
    exact (hsub2.eq_of_length
      ((hperm.filter (fun p => packageIsRepositoryProvider p.2.pkg)).length_eq.symm)).symm
  have hfilterN : (l.mergeSort reorderLE).filter
      (fun p => !packageIsRepositoryProvider p.2.pkg) =
      l.filter (fun p => !packageIsRepositoryProvider p.2.pkg) := by
    have hpw : (l.filter (fun p => !packageIsRepositoryProvider p.2.pkg)).Pairwise
        (fun a b => reorderLE a b) := by
      refine List.Pairwise.imp_of_mem ?_
        (List.Pairwise.filter (fun p => !packageIsRepositoryProvider p.2.pkg) hidx)
      intro a b hma hmb hlt
      have hpa := (List.mem_filter.mp hma).2
      have hpb := (List.mem_filter.mp hmb).2
      simp only [Bool.not_eq_true'] at hpa hpb
      unfold reorderLE
      simp only [hpa, hpb]
      simp
      omega
    have hsub : List.Sublist
        (l.filter (fun p => !packageIsRepositoryProvider p.2.pkg))
        (l.mergeSort reorderLE) :=
      List.sublist_mergeSort reorderLE_trans reorderLE_total hpw
        (List.filter_sublist l)
    have hsub2 : List.Sublist
        (l.filter (fun p => !packageIsRepositoryProvider p.2.pkg))
        ((l.mergeSort reorderLE).filter
          (fun p => !packageIsRepositoryProvider p.2.pkg)) := by
      have hidem : (l.filter (fun p => !packageIsRepositoryProvider p.2.pkg)).filter
          (fun p => !packageIsRepositoryProvider p.2.pkg) =
          l.filter (fun p => !packageIsRepositoryProvider p.2.pkg) :=
        List.filter_eq_self.mpr (fun a ha => (List.mem_filter.mp ha).2)
      have := hsub.filter (fun p => !packageIsRepositoryProvider p.2.pkg)
      rwa [hidem] at this
    exact (hsub2.eq_of_length
      ((hperm.filter (fun p => !packageIsRepositoryProvider p.2.pkg)).length_eq.symm)).symm
  rw [hpart, hfilterP, hfilterN]

/-- C6. The source reorder is a stable partition: its output is the
providers of the repository capability, in original relative order,
followed by all other features, in original relative order — a statement
that also fixes the output as a permutation of the input. The function is
a pure Lean function, so it is side-effect free by construction. -/
theorem c6_reorder_stable_partition (features : List Feature) :
    reorderFeatures features =
      features.filter (fun f => packageIsRepositoryProvider f.pkg) ++
      features.filter (fun f => !packageIsRepositoryProvider f.pkg) := by
  unfold reorderFeatures
  show ((List.enumFrom 0 features).mergeSort reorderLE).map Prod.snd = _
  rw [mergeSort_reorderLE_eq _ (pairwise_fst_lt_enumFrom 0 features)]
  rw [List.map_append,
    map_snd_filter_enumFrom (fun f => packageIsRepositoryProvider f.pkg) 0 features,
    map_snd_filter_enumFrom (fun f => !packageIsRepositoryProvider f.pkg) 0 features]

/-- C4, counterexample. The per-feature activation call in
`updateActiveFeatures` is issued without a try block: when activating
feat-b throws, the error propagates to the caller as an uncaught
exception and the remaining activation of feat-c is never attempted, so
the claim that every per-feature host call in the activation pass is
caught and isolated fails on the code. -/
theorem c4_counterexample :
    updateActiveFeatures
      ⟨[], [], (fun n => if n = "feat-b" then some "boom" else none),
       fun _ => none, fun _ => none⟩
      ⟨[⟨"pkgs/feat-b", ⟨[]⟩⟩, ⟨"pkgs/feat-c", ⟨[]⟩⟩], []⟩ none none [] =
      Except.error ("boom", [Event.activateCall "feat-b"]) ∧
    Event.activateCall "feat-c" ∉ [Event.activateCall "feat-b"] :=
  ⟨by rfl, by decide⟩

/-- C4, amended. For the per-feature host calls made through
`safeDeactivate` (in `updateActiveFeatures` and `deactivate`) and
`safeSerialize` (in `serialize`), a thrown error is caught and logged
with the feature name and message and does not prevent the call for any
other feature of the batch; the wrappers are total functions returning
their trace, so nothing propagates to the caller. The bare activation
call is the exception established by the counterexample. -/
theorem c4_deactivate_serialize_isolated (h : HostBehavior)
    (features : List Feature) (f : Feature) (hf : f ∈ features) :
    (packageNameFromPath f.path ∈ h.activePackages →
      Event.serializeCall (packageNameFromPath f.path) ∈ serialize h features) ∧
    (∀ m, packageNameFromPath f.path ∈ h.activePackages →
      h.serializeFails (packageNameFromPath f.path) = some m →
      Event.log ("Error serializing \"" ++ packageNameFromPath f.path ++ "\": " ++ m)
        ∈ serialize h features) ∧
    (packageNameFromPath f.path ∈ h.loadedPackages →
      Event.deactivateCall (packageNameFromPath f.path) true ∈
        deactivateAll h features) ∧
    (∀ m, packageNameFromPath f.path ∈ h.loadedPackages →
      h.deactivateFails (packageNameFromPath f.path) = some m →
      Event.log ("Error deactivating \"" ++ packageNameFromPath f.path ++ "\": " ++ m)
        ∈ deactivateAll h features) := by
  refine ⟨?_, ?_, ?_, ?_⟩
  · intro ha
    simp only [serialize, List.mem_flatMap]
    refine ⟨f, hf, ?_⟩
    cases hsf : h.serializeFails (packageNameFromPath f.path) <;>
      simp [safeSerialize, ha, hsf]
  · intro m ha hm
    simp only [serialize, List.mem_flatMap]
    exact ⟨f, hf, by simp [safeSerialize, ha, hm]⟩
  · intro hl
    simp only [deactivateAll, List.mem_flatMap]
    refine ⟨f, hf, ?_⟩
    cases hsf : h.deactivateFails (packageNameFromPath f.path) <;>
      simp [safeDeactivate, hl, hsf]
  · intro m hl hm
    simp only [deactivateAll, List.mem_flatMap]
    exact ⟨f, hf, by simp [safeDeactivate, hl, hm]⟩

/-- Witness for the amended C4: with a host on which serializing and
deactivating feat-a both throw, feat-b is still serialized and
deactivated, and the feat-a failures are logged. -/
theorem c4_deactivate_serialize_isolated_witness :
    Event.serializeCall "feat-b" ∈
      serialize
        ⟨["feat-a", "feat-b"], ["feat-a", "feat-b"], fun _ => none,
         (fun n => if n = "feat-a" then some "boom" else none),
         (fun n => if n = "feat-a" then some "boom" else none)⟩
        [⟨"pkgs/feat-a", ⟨[]⟩⟩, ⟨"pkgs/feat-b", ⟨[]⟩⟩] ∧
    Event.log ("Error serializing \"" ++ "feat-a" ++ "\": " ++ "boom") ∈
      serialize
        ⟨["feat-a", "feat-b"], ["feat-a", "feat-b"], fun _ => none,
         (fun n => if n = "feat-a" then some "boom" else none),
         (fun n => if n = "feat-a" then some "boom" else none)⟩
        [⟨"pkgs/feat-a", ⟨[]⟩⟩, ⟨"pkgs/feat-b", ⟨[]⟩⟩] ∧
    Event.deactivateCall "feat-b" true ∈
      deactivateAll
        ⟨["feat-a", "feat-b"], ["feat-a", "feat-b"], fun _ => none,
         (fun n => if n = "feat-a" then some "boom" else none),
         (fun n => if n = "feat-a" then some "boom" else none)⟩
        [⟨"pkgs/feat-a", ⟨[]⟩⟩, ⟨"pkgs/feat-b", ⟨[]⟩⟩] :=
  ⟨(c4_deactivate_serialize_isolated
      ⟨["feat-a", "feat-b"], ["feat-a", "feat-b"], fun _ => none,
       (fun n => if n = "feat-a" then some "boom" else none),
       (fun n => if n = "feat-a" then some "boom" else none)⟩
      [⟨"pkgs/feat-a", ⟨[]⟩⟩, ⟨"pkgs/feat-b", ⟨[]⟩⟩]
      ⟨"pkgs/feat-b", ⟨[]⟩⟩ (by decide)).1 (by decide),
   (c4_deactivate_serialize_isolated
      ⟨["feat-a", "feat-b"], ["feat-a", "feat-b"], fun _ => none,
       (fun n => if n = "feat-a" then some "boom" else none),
       (fun n => if n = "feat-a" then some "boom" else none)⟩
      [⟨"pkgs/feat-a", ⟨[]⟩⟩, ⟨"pkgs/feat-b", ⟨[]⟩⟩]
      ⟨"pkgs/feat-a", ⟨[]⟩⟩ (by decide)).2.1 "boom" (by decide) (by rfl),
   (c4_deactivate_serialize_isolated
      ⟨["feat-a", "feat-b"], ["feat-a", "feat-b"], fun _ => none,
       (fun n => if n = "feat-a" then some "boom" else none),
       (fun n => if n = "feat-a" then some "boom" else none)⟩
      [⟨"pkgs/feat-a", ⟨[]⟩⟩, ⟨"pkgs/feat-b", ⟨[]⟩⟩]
      ⟨"pkgs/feat-b", ⟨[]⟩⟩ (by decide)).2.2.1 (by decide)⟩

/-- C8. A thrown error while serializing one feature is caught and
logged, and a serialize request is still issued for every later feature
the host reports active: the trace membership below holds whatever the
serialize failures of the earlier features are. -/
theorem c8_serialize_continues_after_failure (h : HostBehavior)
    (pre post : List Feature) (f g : Feature) (hg : g ∈ post)
    (hact : packageNameFromPath g.path ∈ h.activePackages) :
    Event.serializeCall (packageNameFromPath g.path) ∈
      serialize h (pre ++ f :: post) ∧
    (∀ m, packageNameFromPath f.path ∈ h.activePackages →
      h.serializeFails (packageNameFromPath f.path) = some m →
      Event.log ("Error serializing \"" ++ packageNameFromPath f.path ++ "\": " ++ m)
        ∈ serialize h (pre ++ f :: post)) := by
  constructor
  · simp only [serialize, List.mem_flatMap]
    refine ⟨g, by simp [hg], ?_⟩
    cases hsf : h.serializeFails (packageNameFromPath g.path) <;>
      simp [safeSerialize, hact, hsf]
  · intro m hfa hm
    simp only [serialize, List.mem_flatMap]
    exact ⟨f, by simp, by simp [safeSerialize, hfa, hm]⟩

/-- Witness for C8: serializing feat-a throws, feat-b is still
serialized and the feat-a error is logged. -/
theorem c8_serialize_continues_after_failure_witness :
    (⟨"pkgs/feat-b", ⟨[]⟩⟩ : Feature) ∈ [(⟨"pkgs/feat-b", ⟨[]⟩⟩ : Feature)] ∧
    Event.serializeCall "feat-b" ∈
      serialize
        ⟨[], ["feat-a", "feat-b"], fun _ => none, fun _ => none,
         (fun n => if n = "feat-a" then some "boom" else none)⟩
        ([] ++ ⟨"pkgs/feat-a", ⟨[]⟩⟩ :: [⟨"pkgs/feat-b", ⟨[]⟩⟩]) ∧
    Event.log ("Error serializing \"" ++ "feat-a" ++ "\": " ++ "boom") ∈
      serialize
        ⟨[], ["feat-a", "feat-b"], fun _ => none, fun _ => none,
         (fun n => if n = "feat-a" then some "boom" else none)⟩
        ([] ++ ⟨"pkgs/feat-a", ⟨[]⟩⟩ :: [⟨"pkgs/feat-b", ⟨[]⟩⟩]) :=
  ⟨by decide,
   (c8_serialize_continues_after_failure
     ⟨[], ["feat-a", "feat-b"], fun _ => none, fun _ => none,
      (fun n => if n = "feat-a" then some "boom" else none)⟩
     [] [⟨"pkgs/feat-b", ⟨[]⟩⟩] ⟨"pkgs/feat-a", ⟨[]⟩⟩ ⟨"pkgs/feat-b", ⟨[]⟩⟩
     (by decide) (by decide)).1,
   (c8_serialize_continues_after_failure
     ⟨[], ["feat-a", "feat-b"], fun _ => none, fun _ => none,
      (fun n => if n = "feat-a" then some "boom" else none)⟩
     [] [⟨"pkgs/feat-b", ⟨[]⟩⟩] ⟨"pkgs/feat-a", ⟨[]⟩⟩ ⟨"pkgs/feat-b", ⟨[]⟩⟩
     (by decide) (by decide)).2 "boom" (by decide) (by rfl)⟩

/-- C7, counterexample. The precondition of `load` only checks that the
internal load disposable has not been disposed, and nothing in the class
ever disposes it, so a second call to `load` passes the invariant and
proceeds instead of failing fatally: both calls below return normally. -/
theorem c7_counterexample :
    load initialState = Except.ok initialState ∧
    (load initialState).bind (fun s => load s) = Except.ok initialState :=
  ⟨by rfl, by rfl⟩

/-- C7, amended. `deactivate` fails fatally whenever the activation
disposable is absent or already disposed (before `activate`, or after a
previous `deactivate`), and `activate` fails fatally when the activation
disposable already exists (double activation) or the root package is not
loaded; but `load` succeeds whenever the load disposable is undisposed —
which the class never changes — so a double `load` is not detected. -/
theorem c7_lifecycle_invariants (h : HostBehavior) (rootLoaded : Bool)
    (d : FeatureLoaderData) (useFeatureRules : Option (List (String × JsRule)))
    (enabledFeatureGroups : Option (List String)) (s : LoaderState) :
    (s.activationDisposable = none →
      deactivate h s = Except.error invariantViolation) ∧
    (s.activationDisposable = some true →
      deactivate h s = Except.error invariantViolation) ∧
    (∀ b, s.activationDisposable = some b →
      activate h rootLoaded d useFeatureRules enabledFeatureGroups s =
        Except.error invariantViolation) ∧
    (s.activationDisposable = none → rootLoaded = false →
      activate h rootLoaded d useFeatureRules enabledFeatureGroups s =
        Except.error invariantViolation) ∧
    (s.loadDisposableDisposed = false → load s = Except.ok s) := by
  refine ⟨?_, ?_, ?_, ?_, ?_⟩
  · intro h0
    simp [deactivate, h0]
  · intro h0
    simp [deactivate, h0]
  · intro b hb
    simp [activate, hb]
  · intro h0 hr
    simp [activate, h0, hr]
  · intro h0
    simp [load, h0]

/-- Witness for the amended C7: on a fresh controller, `deactivate` and
a premature `activate` fail fatally while `load` succeeds. -/
theorem c7_lifecycle_invariants_witness :
    deactivate ⟨[], [], fun _ => none, fun _ => none, fun _ => none⟩
      initialState = Except.error invariantViolation ∧
    activate ⟨[], [], fun _ => none, fun _ => none, fun _ => none⟩
      false ⟨[], []⟩ none none initialState =
        Except.error invariantViolation ∧
    load initialState = Except.ok initialState :=
  ⟨(c7_lifecycle_invariants
      ⟨[], [], fun _ => none, fun _ => none, fun _ => none⟩
      false ⟨[], []⟩ none none initialState).1 rfl,
   (c7_lifecycle_invariants
      ⟨[], [], fun _ => none, fun _ => none, fun _ => none⟩
      false ⟨[], []⟩ none none initialState).2.2.2.1 rfl rfl,
   (c7_lifecycle_invariants
      ⟨[], [], fun _ => none, fun _ => none, fun _ => none⟩
      false ⟨[], []⟩ none none initialState).2.2.2.2 rfl⟩

end FeatureLoader
